import Mathlib

/-!
Shallow embedding of the cortex repository (src/models/rbm.py,
src/inference/rws.py, src/op.py) over the reals, with theorems checking the
natural-language specification claims against the embedded code.
-/

namespace Cortex

noncomputable section

/-- Real matrices indexed by finite dimensions, the embedding of 2-d Theano tensors. -/
abbrev Mat (m n : ℕ) : Type := Fin m → Fin n → ℝ

/-- Mean along an axis: the sum divided by the length, embedding of Theano mean. -/
def meanFin {n : ℕ} (f : Fin n → ℝ) : ℝ := (∑ k, f k) / n

/-- Modelled from the spec: log_sum_exp of utils.tools (module absent from src),
the logarithm of the sum of exponentials along the sample axis. -/
def log_sum_exp {K : ℕ} (f : Fin K → ℝ) : ℝ := Real.log (∑ k, Real.exp (f k))

/-- The logistic sigmoid, the embedding of T.nnet.sigmoid. -/
def sigmoid (z : ℝ) : ℝ := 1 / (1 + Real.exp (-z))

namespace RBM

/-- Embedding of RBM.step_pv_h: probability of the visibles given the hiddens,
sigmoid of h.dot(W.T) + b, batched over rows. -/
def step_pv_h {N dv dh : ℕ} (h : Mat N dh) (W : Mat dv dh) (b : Fin dv → ℝ) : Mat N dv :=
  fun n i => sigmoid ((∑ j, h n j * W i j) + b i)

/-- Embedding of RBM.step_sv_h: sample the visibles given the hiddens by
thresholding uniform draws r against the probabilities, returning the sample and
the probabilities. -/
def step_sv_h {N dv dh : ℕ} (r : Mat N dv) (h : Mat N dh) (W : Mat dv dh) (b : Fin dv → ℝ) :
    Mat N dv × Mat N dv :=
  let p := step_pv_h h W b
  (fun n i => if r n i ≤ p n i then 1 else 0, p)

/-- Embedding of RBM.step_ph_v: probability of the hiddens given the visibles,
sigmoid of x.dot(W) + c. -/
def step_ph_v {N dv dh : ℕ} (x : Mat N dv) (W : Mat dv dh) (c : Fin dh → ℝ) : Mat N dh :=
  fun n j => sigmoid ((∑ i, x n i * W i j) + c j)

/-- Embedding of RBM.step_sh_v: sample the hiddens given the visibles. -/
def step_sh_v {N dv dh : ℕ} (r : Mat N dh) (x : Mat N dv) (W : Mat dv dh) (c : Fin dh → ℝ) :
    Mat N dh × Mat N dh :=
  let p := step_ph_v x W c
  (fun n j => if r n j ≤ p n j then 1 else 0, p)

/-- Embedding of RBM.step_gibbs: one Gibbs transition, sampling the visibles
from the current hiddens and then new hiddens from those visibles; returns
(h, v, ph, pv). -/
def step_gibbs {N dv dh : ℕ} (r_h : Mat N dh) (r_v : Mat N dv) (h : Mat N dh)
    (W : Mat dv dh) (b : Fin dv → ℝ) (c : Fin dh → ℝ) :
    Mat N dh × Mat N dv × Mat N dh × Mat N dv :=
  let sv := step_sv_h r_v h W b
  let sh := step_sh_v r_h sv.1 W c
  (sh.1, sv.1, sh.2, sv.2)

/-- Embedding of the scan inside RBM.sample: iterate step_gibbs along the list
of per-step uniform draws (r_h, r_v), threading the hidden state, and collect
each step output (h, v, ph, pv). -/
def sample {N dv dh : ℕ} (W : Mat dv dh) (b : Fin dv → ℝ) (c : Fin dh → ℝ) :
    Mat N dh → List (Mat N dh × Mat N dv) →
      List (Mat N dh × Mat N dv × Mat N dh × Mat N dv)
  | _, [] => []
  | h, r :: rs =>
    let o := step_gibbs r.1 r.2 h W b c
    o :: sample W b c o.1 rs

/-- The hidden state after folding step_gibbs over a list of draws. -/
def gibbs_iterate {N dv dh : ℕ} (W : Mat dv dh) (b : Fin dv → ℝ) (c : Fin dh → ℝ)
    (h0 : Mat N dh) (l : List (Mat N dh × Mat N dv)) : Mat N dh :=
  l.foldl (fun h r => (step_gibbs r.1 r.2 h W b c).1) h0

/-- Embedding of RBM.free_energy on a 2-d input. -/
def free_energy {N dv dh : ℕ} (W : Mat dv dh) (b : Fin dv → ℝ) (c : Fin dh → ℝ)
    (x : Mat N dv) : Fin N → ℝ :=
  fun n => -(∑ i, x n i * b i) -
    ∑ j, Real.log (1 + Real.exp (c j + ∑ i, W i j * x n i))

/-- Results record of RBM.__call__ (the scalar entries of the results dict and
the chain samples). -/
structure CallResults (N dv dh : ℕ) where
  cost : ℝ
  positive_cost : ℝ
  negative_cost : ℝ
  fe_mean : ℝ
  vs : List (Mat N dv)
  hs : List (Mat N dh)

/-- Embedding of RBM.__call__: draw h_p from the posterior probabilities when
absent, run the Gibbs chain, and report mean free-energy difference between the
data v0 = x and the final chain visibles vk.  The draws r0 (for h_p) and rs
(one pair per Gibbs step) are explicit inputs; the code requires at least one
step, and on an empty chain the final visibles default to x. -/
def rbm_call {N dv dh : ℕ} (W : Mat dv dh) (b : Fin dv → ℝ) (c : Fin dh → ℝ)
    (x : Mat N dv) (h_p : Option (Mat N dh)) (r0 : Mat N dh)
    (rs : List (Mat N dh × Mat N dv)) : CallResults N dv dh :=
  let ph0 := step_ph_v x W c
  let hp := match h_p with
    | some hp => hp
    | none => fun n j => if r0 n j ≤ ph0 n j then 1 else 0
  let outs := sample W b c hp rs
  let v0 := x
  let vk := ((outs.getLast?).map (fun o => o.2.1)).getD v0
  let positive_cost := free_energy W b c v0
  let negative_cost := free_energy W b c vk
  { cost := meanFin positive_cost - meanFin negative_cost
    positive_cost := meanFin positive_cost
    negative_cost := meanFin negative_cost
    fe_mean := meanFin (free_energy W b c v0)
    vs := outs.map (fun o => o.2.1)
    hs := outs.map (fun o => o.1) }

end RBM

namespace RWS

/-- Interface of the generative model used by RWS.__call__.  The posterior,
conditional and prior objects (models.distributions, absent from src) are
abstracted as row-wise functions: feed maps inputs to distribution parameters
and neg_log_prob gives the negative log-probability of one sampled row. -/
structure Model (N dv dh dy : ℕ) where
  posterior_feed : Mat N dv → Mat N dh
  conditional_feed : (Fin dh → ℝ) → Fin dy → ℝ
  conditional_neg_log_prob : (Fin dy → ℝ) → (Fin dy → ℝ) → ℝ
  prior_neg_log_prob : (Fin dh → ℝ) → ℝ
  posterior_neg_log_prob : (Fin dh → ℝ) → (Fin dh → ℝ) → ℝ
  prior_entropy : ℝ
  posterior_entropy : Mat N dh → Fin N → ℝ

/-- The proposal parameters q_c in RWS.__call__: q when qk is None, otherwise qk. -/
def q_c {N dh : ℕ} (q : Mat N dh) (qk : Option (Mat N dh)) : Mat N dh :=
  match qk with
  | none => q
  | some v => v

/-- The sampled hidden configurations h of RWS.__call__: the uniform draws r
thresholded against the proposal probabilities. -/
def hSamples {N K dh : ℕ} (qc : Mat N dh) (r : Fin K → Mat N dh) : Fin K → Mat N dh :=
  fun k n d => if r k n d ≤ qc n d then 1 else 0

/-- The log p(y|h) term of RWS.__call__. -/
def log_py_h {N K dv dh dy : ℕ} (M : Model N dv dh dy) (y : Mat N dy)
    (h : Fin K → Mat N dh) : Fin K → Fin N → ℝ :=
  fun k n => -(M.conditional_neg_log_prob (y n) (M.conditional_feed (h k n)))

/-- The log p(h) term of RWS.__call__. -/
def log_ph {N K dv dh dy : ℕ} (M : Model N dv dh dy) (h : Fin K → Mat N dh) :
    Fin K → Fin N → ℝ :=
  fun k n => -(M.prior_neg_log_prob (h k n))

/-- The log q(h|x) term of RWS.__call__ evaluated against proposal parameters q. -/
def log_qh {N K dv dh dy : ℕ} (M : Model N dv dh dy) (h : Fin K → Mat N dh)
    (q : Mat N dh) : Fin K → Fin N → ℝ :=
  fun k n => -(M.posterior_neg_log_prob (h k n) (q n))

/-- The log_p of RWS.__call__: the importance-weighted bound, using log_qh when
qk is None and log_qkh otherwise. -/
def log_p {N K dv dh dy : ℕ} (M : Model N dv dh dy) (x : Mat N dv) (y : Mat N dy)
    (r : Fin K → Mat N dh) (qk : Option (Mat N dh)) : Fin N → ℝ :=
  let q := M.posterior_feed x
  let h := hSamples (q_c q qk) r
  match qk with
  | none => fun n =>
      log_sum_exp (fun k => log_py_h M y h k n + log_ph M h k n - log_qh M h q k n) -
        Real.log K
  | some qkv => fun n =>
      log_sum_exp (fun k => log_py_h M y h k n + log_ph M h k n - log_qh M h qkv k n) -
        Real.log K

/-- The log_pq of RWS.__call__ (always against log_qh built from q). -/
def log_pq {N K dv dh dy : ℕ} (M : Model N dv dh dy) (x : Mat N dv) (y : Mat N dy)
    (r : Fin K → Mat N dh) (qk : Option (Mat N dh)) : Fin K → Fin N → ℝ :=
  let q := M.posterior_feed x
  let h := hSamples (q_c q qk) r
  fun k n => log_py_h M y h k n + log_ph M h k n - log_qh M h q k n - Real.log K

/-- The normalized importance weights w_tilde of RWS.__call__. -/
def w_tilde {N K dv dh dy : ℕ} (M : Model N dv dh dy) (x : Mat N dv) (y : Mat N dy)
    (r : Fin K → Mat N dh) (qk : Option (Mat N dh)) : Fin K → Fin N → ℝ :=
  fun k n =>
    Real.exp (log_pq M x y r qk k n - log_sum_exp (fun k2 => log_pq M x y r qk k2 n))

/-- The outputs of RWS.__call__: the per-point arrays and the scalar entries of
the results dict. -/
structure Results (N K dh dy : ℕ) where
  y_energy : Fin N → ℝ
  prior_energy : Fin N → ℝ
  h_energy : Fin N → ℝ
  nll : Fin N → ℝ
  res_y_energy : ℝ
  res_prior_energy : ℝ
  res_h_energy : ℝ
  res_neg_log_px : ℝ
  res_prior_entropy : ℝ
  res_q_entropy : ℝ
  lower_bound : ℝ
  cost : ℝ
  weights : Fin K → Fin N → ℝ

/-- Embedding of RWS.__call__ with n_posterior_samples = K; the uniform draws r
are an explicit input. -/
def call {N K dv dh dy : ℕ} (M : Model N dv dh dy) (x : Mat N dv) (y : Mat N dy)
    (r : Fin K → Mat N dh) (qk : Option (Mat N dh)) : Results N K dh dy :=
  let q := M.posterior_feed x
  let qc := q_c q qk
  let h := hSamples qc r
  let lpy := log_py_h M y h
  let lph := log_ph M h
  let lqh := log_qh M h q
  let wt := w_tilde M x y r qk
  let y_energy : Fin N → ℝ := fun n => -(∑ k, wt k n * lpy k n)
  let prior_energy : Fin N → ℝ := fun n => -(∑ k, wt k n * lph k n)
  let h_energy : Fin N → ℝ := fun n => -(∑ k, wt k n * lqh k n)
  let nll : Fin N → ℝ := fun n => -(log_p M x y r qk n)
  let q_entropy := M.posterior_entropy qc
  { y_energy := y_energy
    prior_energy := prior_energy
    h_energy := h_energy
    nll := nll
    res_y_energy := meanFin y_energy
    res_prior_energy := meanFin prior_energy
    res_h_energy := meanFin h_energy
    res_neg_log_px := meanFin nll
    res_prior_entropy := M.prior_entropy
    res_q_entropy := meanFin q_entropy
    lower_bound := meanFin (fun n => y_energy n + prior_energy n - q_entropy n)
    cost := ∑ n, (y_energy n + prior_energy n + h_energy n)
    weights := wt }

end RWS

namespace Op

/-- Parameter names, modelled as lists of characters; the check of op.py for
the letter W in a name becomes list membership. -/
abbrev Name : Type := List Char

/-- The character W used by the column-norm clipping test of adam. -/
def wChar : Char := 'W'

/-- The value of one parameter of index i: a matrix whose dimensions depend on i. -/
abbrev Tens {ι : Type} (rows cols : ι → ℕ) (i : ι) : Type :=
  Fin (rows i) → Fin (cols i) → ℝ

/-- The global euclidean norm over a whole family of gradients. -/
def gnorm_all {ι : Type} [Fintype ι] {rows cols : ι → ℕ}
    (g : ∀ i, Tens rows cols i) : ℝ :=
  Real.sqrt (∑ i, ∑ r, ∑ c, (g i r c) ^ 2)

/-- Embedding of f_grad_shared of adam: each gradient is divided by 100, then
every gradient is multiplied by scaler = 5 / max(5, global norm). -/
def adam_f_grad_shared {ι : Type} [Fintype ι] {rows cols : ι → ℕ}
    (grads : ∀ i, Tens rows cols i) : ∀ i, Tens rows cols i :=
  let g1 : ∀ i, Tens rows cols i := fun i r c => grads i r c / 100
  let g_norm := gnorm_all g1
  let scaler := 5 / max 5 g_norm
  fun i r c => g1 i r c * scaler

/-- The hard-coded step-size constant lr0 of adam. -/
def lr0 : ℝ := 0.0002

/-- The hard-coded first-moment constant b1 of adam. -/
def b1 : ℝ := 0.1

/-- The hard-coded second-moment constant b2 of adam. -/
def b2 : ℝ := 0.001

/-- The hard-coded denominator constant e of adam. -/
def eConst : ℝ := 1e-8

/-- Embedding of the column-norm clipping loop of adam: column norms are
clipped to the interval [0, 1.9365] and the matrix is rescaled columnwise. -/
def clip_cols {R C : ℕ} (u : Fin R → Fin C → ℝ) : Fin R → Fin C → ℝ :=
  let col_norms : Fin C → ℝ := fun c => Real.sqrt (∑ r, (u r c) ^ 2)
  let desired_norms : Fin C → ℝ := fun c => min (max (col_norms c) 0) 1.9365
  let ratio : Fin C → ℝ := fun c => desired_norms c / (1e-7 + col_norms c)
  fun r c => u r c * ratio c

/-- State carried by the adam optimizer: parameters, first and second moments,
and the step counter i. -/
structure AdamState {ι : Type} (rows cols : ι → ℕ) where
  p : ∀ i, Tens rows cols i
  m : ∀ i, Tens rows cols i
  v : ∀ i, Tens rows cols i
  cnt : ℕ

/-- Embedding of f_update of adam: the moment and parameter updates with the
hard-coded constants, followed by column-norm clipping of every updated named
parameter whose name holds the letter W (the moment shared variables are
unnamed and never clipped); the lr argument, like the Theano input, is
ignored.  Parameters whose names are in exclude are not updated. -/
def adam_f_update {ι : Type} {rows cols : ι → ℕ} (name : ι → Name)
    (exclude : List Name) (lr : ℝ) (st : AdamState rows cols)
    (g : ∀ i, Tens rows cols i) : AdamState rows cols :=
  let i_t : ℕ := st.cnt + 1
  let fix1 : ℝ := 1 - b1 ^ i_t
  let fix2 : ℝ := 1 - b2 ^ i_t
  let lr_t : ℝ := lr0 * (Real.sqrt fix2 / fix1)
  let m_t : ∀ i, Tens rows cols i := fun i r c => b1 * g i r c + (1 - b1) * st.m i r c
  let v_t : ∀ i, Tens rows cols i := fun i r c =>
    b2 * (g i r c) ^ 2 + (1 - b2) * st.v i r c
  let g_t : ∀ i, Tens rows cols i := fun i r c =>
    m_t i r c / (Real.sqrt (v_t i r c) + eConst)
  let p_t : ∀ i, Tens rows cols i := fun i r c => st.p i r c - lr_t * g_t i r c
  { p := fun i =>
      if name i ∈ exclude then st.p i
      else if wChar ∈ name i then clip_cols (p_t i) else p_t i
    m := m_t
    v := v_t
    cnt := i_t }

/-- Embedding of f_grad_shared of sgd: the gradients are stored unchanged. -/
def sgd_f_grad_shared {ι : Type} {rows cols : ι → ℕ}
    (grads : ∀ i, Tens rows cols i) : ∀ i, Tens rows cols i :=
  grads

/-- Embedding of f_update of sgd: p - lr * g for every parameter whose name is
not excluded. -/
def sgd_f_update {ι : Type} {rows cols : ι → ℕ} (name : ι → Name)
    (exclude : List Name) (lr : ℝ) (p g : ∀ i, Tens rows cols i) :
    ∀ i, Tens rows cols i :=
  fun i =>
    if name i ∈ exclude then p i
    else fun r c => p i r c - lr * g i r c

/-- State carried by the adadelta optimizer. -/
structure AdadeltaState {ι : Type} (rows cols : ι → ℕ) where
  p : ∀ i, Tens rows cols i
  zipped_grads : ∀ i, Tens rows cols i
  running_up2 : ∀ i, Tens rows cols i
  running_grads2 : ∀ i, Tens rows cols i

/-- Embedding of f_grad_shared of adadelta: store the gradients and update the
running average of squared gradients. -/
def adadelta_f_grad_shared {ι : Type} {rows cols : ι → ℕ}
    (grads : ∀ i, Tens rows cols i) (st : AdadeltaState rows cols) :
    AdadeltaState rows cols :=
  { st with
    zipped_grads := grads
    running_grads2 := fun i r c =>
      0.95 * st.running_grads2 i r c + 0.05 * (grads i r c) ^ 2 }

/-- The update direction updir of adadelta. -/
def adadelta_updir {ι : Type} {rows cols : ι → ℕ} (st : AdadeltaState rows cols) :
    ∀ i, Tens rows cols i :=
  fun i r c =>
    -Real.sqrt (st.running_up2 i r c + 1e-6) /
      Real.sqrt (st.running_grads2 i r c + 1e-6) * st.zipped_grads i r c

/-- Embedding of f_update of adadelta: update the running average of squared
updates and move every non-excluded parameter by updir; lr is ignored by the
compiled function. -/
def adadelta_f_update {ι : Type} {rows cols : ι → ℕ} (name : ι → Name)
    (exclude : List Name) (lr : ℝ) (st : AdadeltaState rows cols) :
    AdadeltaState rows cols :=
  let ud := adadelta_updir st
  { st with
    running_up2 := fun i r c => 0.95 * st.running_up2 i r c + 0.05 * (ud i r c) ^ 2
    p := fun i =>
      if name i ∈ exclude then st.p i
      else fun r c => st.p i r c + ud i r c }

/-- State carried by the rmsprop optimizer. -/
structure RmspropState {ι : Type} (rows cols : ι → ℕ) where
  p : ∀ i, Tens rows cols i
  zipped_grads : ∀ i, Tens rows cols i
  running_grads : ∀ i, Tens rows cols i
  running_grads2 : ∀ i, Tens rows cols i
  updir : ∀ i, Tens rows cols i

/-- Embedding of f_grad_shared of rmsprop: store the gradients and update the
running averages of gradients and squared gradients. -/
def rmsprop_f_grad_shared {ι : Type} {rows cols : ι → ℕ}
    (grads : ∀ i, Tens rows cols i) (st : RmspropState rows cols) :
    RmspropState rows cols :=
  { st with
    zipped_grads := grads
    running_grads := fun i r c => 0.95 * st.running_grads i r c + 0.05 * grads i r c
    running_grads2 := fun i r c =>
      0.95 * st.running_grads2 i r c + 0.05 * (grads i r c) ^ 2 }

/-- The new momentum direction updir_new of rmsprop. -/
def rmsprop_updir_new {ι : Type} {rows cols : ι → ℕ} (st : RmspropState rows cols) :
    ∀ i, Tens rows cols i :=
  fun i r c =>
    0.9 * st.updir i r c -
      1e-4 * st.zipped_grads i r c /
        Real.sqrt (st.running_grads2 i r c - st.running_grads i r c ^ 2 + 1e-4)

/-- Embedding of f_update of rmsprop: replace the momentum by updir_new and
move every non-excluded parameter by it; lr is ignored by the compiled
function. -/
def rmsprop_f_update {ι : Type} {rows cols : ι → ℕ} (name : ι → Name)
    (exclude : List Name) (lr : ℝ) (st : RmspropState rows cols) :
    RmspropState rows cols :=
  let udn := rmsprop_updir_new st
  { st with
    updir := udn
    p := fun i =>
      if name i ∈ exclude then st.p i
      else fun r c => st.p i r c + udn i r c }

end Op

namespace Py

/-- Outcome of a Python call: a value, or a TypeError raised at binding time. -/
inductive Outcome (α : Type) where
  | ok : α → Outcome α
  | typeError : Outcome α

/-- A params dict: names bound in the instance. -/
abbrev Params : Type := List Op.Name

/-- Modelled from the spec: Python 2 bound-method invocation (the interpreter
is not part of src).  Calling obj.m(a1, ..., ak) passes k + 1 positional
arguments, the instance first; binding raises TypeError unless k + 1 equals
the number of declared parameters, and only on success does the body run. -/
def invoke_method (declared_arity : ℕ) (body : Params → Params)
    (explicit_args : ℕ) (st : Params) : Outcome Params :=
  if explicit_args + 1 = declared_arity then Outcome.ok (body st) else Outcome.typeError

/-- Number of declared parameters of GradInferRBM.set_params, which is written
with an empty parameter list in src/models/rbm.py. -/
def gradInferRBM_set_params_arity : ℕ := 0

/-- Number of declared parameters of RBM.set_params, written with the single
parameter self. -/
def rbm_set_params_arity : ℕ := 1

end Py

namespace Op

/-- One full adam iteration: f_grad_shared stores the rescaled gradients and
f_update consumes them. -/
def adam_step {ι : Type} [Fintype ι] {rows cols : ι → ℕ} (name : ι → Name)
    (exclude : List Name) (lr : ℝ) (st : AdamState rows cols)
    (grads : ∀ i, Tens rows cols i) : AdamState rows cols :=
  adam_f_update name exclude lr st (adam_f_grad_shared grads)

/-- One full adadelta iteration: f_grad_shared then f_update. -/
def adadelta_step {ι : Type} {rows cols : ι → ℕ} (name : ι → Name)
    (exclude : List Name) (lr : ℝ) (grads : ∀ i, Tens rows cols i)
    (st : AdadeltaState rows cols) : AdadeltaState rows cols :=
  adadelta_f_update name exclude lr (adadelta_f_grad_shared grads st)

/-- One full rmsprop iteration: f_grad_shared then f_update. -/
def rmsprop_step {ι : Type} {rows cols : ι → ℕ} (name : ι → Name)
    (exclude : List Name) (lr : ℝ) (grads : ∀ i, Tens rows cols i)
    (st : RmspropState rows cols) : RmspropState rows cols :=
  rmsprop_f_update name exclude lr (rmsprop_f_grad_shared grads st)

end Op

namespace Wit

/-- Concrete 1 x 1 matrix used to instantiate the theorems. -/
def m11 : Mat 1 1 := fun _ _ => 0

/-- Concrete pair of Gibbs draws for one step. -/
def rpair : Mat 1 1 × Mat 1 1 := (m11, m11)

/-- Concrete one-step chain of draws. -/
def rsOne : List (Mat 1 1 × Mat 1 1) := [rpair]

/-- Concrete posterior-sample draws for the RWS instances. -/
def r11 : Fin 1 → Mat 1 1 := fun _ => m11

/-- Concrete trivial generative model for the RWS instances. -/
def trivModel : RWS.Model 1 1 1 1 where
  posterior_feed := fun _ => fun _ _ => 0
  conditional_feed := fun _ _ => 0
  conditional_neg_log_prob := fun _ _ => 0
  prior_neg_log_prob := fun _ => 0
  posterior_neg_log_prob := fun _ _ => 0
  prior_entropy := 0
  posterior_entropy := fun _ _ => 0

/-- Concrete shape family: two parameters, each 1 x 1. -/
def rc1 : Fin 2 → ℕ := fun _ => 1

/-- Concrete parameter name without the letter W. -/
def nmB : Op.Name := ['b']

/-- Concrete parameter name holding the letter W. -/
def nmW : Op.Name := ['W']

/-- Concrete name assignment: parameter 0 is named b, parameter 1 is named W. -/
def names2 : Fin 2 → Op.Name := fun k => if k = 0 then nmB else nmW

/-- Concrete zero value family for two 1 x 1 parameters. -/
def zeroTens : ∀ i : Fin 2, Op.Tens rc1 rc1 i := fun _ _ _ => 0

/-- Concrete initial adam state. -/
def adamSt0 : Op.AdamState (ι := Fin 2) rc1 rc1 :=
  { p := zeroTens, m := zeroTens, v := zeroTens, cnt := 0 }

/-- Concrete initial adadelta state. -/
def adadeltaSt0 : Op.AdadeltaState (ι := Fin 2) rc1 rc1 :=
  { p := zeroTens, zipped_grads := zeroTens, running_up2 := zeroTens,
    running_grads2 := zeroTens }

/-- Concrete initial rmsprop state. -/
def rmspropSt0 : Op.RmspropState (ι := Fin 2) rc1 rc1 :=
  { p := zeroTens, zipped_grads := zeroTens, running_grads := zeroTens,
    running_grads2 := zeroTens, updir := zeroTens }

end Wit

/-! Helper lemmas shared by the claim theorems. -/

theorem ite_one_zero_eq_one {p : Prop} [Decidable p] :
    (if p then (1 : ℝ) else 0) = 1 ↔ p := by
  split_ifs with hp
  · simp [hp]
  · simp [hp]

theorem sum_exp_sub_lse {K : ℕ} (hK : 0 < K) (f : Fin K → ℝ) :
    ∑ k, Real.exp (f k - log_sum_exp f) = 1 := by
  have hne : (Finset.univ : Finset (Fin K)).Nonempty :=
    ⟨⟨0, hK⟩, Finset.mem_univ _⟩
  have hS : 0 < ∑ k, Real.exp (f k) :=
    Finset.sum_pos (fun k _ => Real.exp_pos _) hne
  simp only [log_sum_exp, Real.exp_sub, Real.exp_log hS]
  rw [← Finset.sum_div, div_self (ne_of_gt hS)]

theorem clip_cols_col_norm_le {R C : ℕ} (u : Fin R → Fin C → ℝ) (c : Fin C) :
    Real.sqrt (∑ r, (Op.clip_cols u r c) ^ 2) ≤ 1.9365 := by
  have hn0 : 0 ≤ Real.sqrt (∑ r, (u r c) ^ 2) := Real.sqrt_nonneg _
  have hden : 0 < (1e-7 : ℝ) + Real.sqrt (∑ r, (u r c) ^ 2) := by positivity
  have hd0 : 0 ≤ min (max (Real.sqrt (∑ r, (u r c) ^ 2)) 0) 1.9365 :=
    le_min (le_max_right _ _) (by norm_num)
  have hsum : ∑ r, (Op.clip_cols u r c) ^ 2 =
      (∑ r, (u r c) ^ 2) *
        (min (max (Real.sqrt (∑ r, (u r c) ^ 2)) 0) 1.9365 /
          (1e-7 + Real.sqrt (∑ r, (u r c) ^ 2))) ^ 2 := by
    rw [Finset.sum_mul]
    refine Finset.sum_congr rfl fun r _ => ?_
    simp [Op.clip_cols, mul_pow]
  rw [hsum, Real.sqrt_mul (Finset.sum_nonneg fun r _ => sq_nonneg _),
    Real.sqrt_sq_eq_abs, abs_of_nonneg (div_nonneg hd0 hden.le)]
  calc Real.sqrt (∑ r, (u r c) ^ 2) *
        (min (max (Real.sqrt (∑ r, (u r c) ^ 2)) 0) 1.9365 /
          (1e-7 + Real.sqrt (∑ r, (u r c) ^ 2)))
      = min (max (Real.sqrt (∑ r, (u r c) ^ 2)) 0) 1.9365 *
          (Real.sqrt (∑ r, (u r c) ^ 2) /
            (1e-7 + Real.sqrt (∑ r, (u r c) ^ 2))) := by ring
    _ ≤ min (max (Real.sqrt (∑ r, (u r c) ^ 2)) 0) 1.9365 * 1 := by
        refine mul_le_mul_of_nonneg_left ?_ hd0
        rw [div_le_one hden]
        linarith
    _ ≤ 1.9365 := by
        rw [mul_one]
        exact min_le_right _ _

theorem adam_f_grad_shared_norm_le {ι : Type} [Fintype ι] {rows cols : ι → ℕ}
    (grads : ∀ i, Op.Tens rows cols i) :
    Op.gnorm_all (Op.adam_f_grad_shared grads) ≤ 5 := by
  have hmax : (0 : ℝ) < max 5 (Op.gnorm_all (fun i r c => grads i r c / 100)) :=
    lt_of_lt_of_le (by norm_num) (le_max_left _ _)
  have hn0 : 0 ≤ Op.gnorm_all (fun i r c => grads i r c / 100) :=
    Real.sqrt_nonneg _
  have hs0 : 0 ≤ 5 / max 5 (Op.gnorm_all (fun i r c => grads i r c / 100)) := by
    positivity
  have hsum : ∑ i, ∑ r, ∑ c, (Op.adam_f_grad_shared grads i r c) ^ 2 =
      (∑ i, ∑ r, ∑ c, (grads i r c / 100) ^ 2) *
        (5 / max 5 (Op.gnorm_all (fun i r c => grads i r c / 100))) ^ 2 := by
    simp only [Op.adam_f_grad_shared, mul_pow, ← Finset.sum_mul]
  have hnn : 0 ≤ ∑ i, ∑ r, ∑ c, (grads i r c / 100) ^ 2 :=
    Finset.sum_nonneg fun i _ =>
      Finset.sum_nonneg fun r _ => Finset.sum_nonneg fun c _ => sq_nonneg _
  unfold Op.gnorm_all
  rw [hsum, Real.sqrt_mul hnn, Real.sqrt_sq_eq_abs, abs_of_nonneg hs0]
  have hform : Real.sqrt (∑ i, ∑ r, ∑ c, (grads i r c / 100) ^ 2) =
      Op.gnorm_all (fun i r c => grads i r c / 100) := rfl
  rw [hform]
  calc Op.gnorm_all (fun i r c => grads i r c / 100) *
        (5 / max 5 (Op.gnorm_all (fun i r c => grads i r c / 100)))
      = 5 * (Op.gnorm_all (fun i r c => grads i r c / 100) /
          max 5 (Op.gnorm_all (fun i r c => grads i r c / 100))) := by ring
    _ ≤ 5 * 1 := by
        refine mul_le_mul_of_nonneg_left ?_ (by norm_num)
        rw [div_le_one hmax]
        exact le_max_right _ _
    _ = 5 := by norm_num

theorem sample_length {N dv dh : ℕ} (W : Mat dv dh) (b : Fin dv → ℝ)
    (c : Fin dh → ℝ) (h0 : Mat N dh) (rs : List (Mat N dh × Mat N dv)) :
    (RBM.sample W b c h0 rs).length = rs.length := by
  induction rs generalizing h0 with
  | nil => rfl
  | cons r rest ih => simp [RBM.sample, ih]

theorem sample_getElem {N dv dh : ℕ} (W : Mat dv dh) (b : Fin dv → ℝ)
    (c : Fin dh → ℝ) (h0 : Mat N dh) (rs : List (Mat N dh × Mat N dv))
    (k : ℕ) (rstep : Mat N dh × Mat N dv) (hk : rs[k]? = some rstep) :
    (RBM.sample W b c h0 rs)[k]? =
      some (RBM.step_gibbs rstep.1 rstep.2
        (RBM.gibbs_iterate W b c h0 (rs.take k)) W b c) := by
  induction rs generalizing h0 k with
  | nil => simp at hk
  | cons r rest ih =>
    cases k with
    | zero =>
      simp only [List.getElem?_cons_zero, Option.some_inj] at hk
      subst hk
      simp [RBM.sample, RBM.gibbs_iterate]
    | succ k =>
      simp only [List.getElem?_cons_succ] at hk
      simpa [RBM.sample, RBM.gibbs_iterate] using ih _ _ hk

theorem free_energy_eq {N dv dh : ℕ} (W : Mat dv dh) (b : Fin dv → ℝ)
    (c : Fin dh → ℝ) (x : Mat N dv) (n : Fin N) :
    RBM.free_energy W b c x n =
      -(∑ i, x n i * b i) -
        ∑ j, Real.log (1 + Real.exp (c j + ∑ i, x n i * W i j)) := by
  unfold RBM.free_energy
  congr 1
  refine Finset.sum_congr rfl fun j _ => ?_
  have hmc : (∑ i, W i j * x n i) = ∑ i, x n i * W i j :=
    Finset.sum_congr rfl fun i _ => mul_comm _ _
  rw [hmc]

/-! Claim theorems. -/

/-- C1: for every call of RWS.__call__ with qk = None and
n_posterior_samples = K, the reported negative log-likelihood -log p(x) is the
mean over the batch of nll, where for every data point
log_p = log_sum_exp over the K sampled hidden configurations h of
(log p(y|h) + log p(h) - log q(h|x)) minus log K, and nll = -log_p. -/
theorem rws_nll_importance_bound {N K dv dh dy : ℕ} (M : RWS.Model N dv dh dy)
    (x : Mat N dv) (y : Mat N dy) (r : Fin K → Mat N dh) :
    (∀ n, (RWS.call M x y r none).nll n =
      -(log_sum_exp (fun k =>
          RWS.log_py_h M y (RWS.hSamples (M.posterior_feed x) r) k n +
            RWS.log_ph M (RWS.hSamples (M.posterior_feed x) r) k n -
            RWS.log_qh M (RWS.hSamples (M.posterior_feed x) r)
              (M.posterior_feed x) k n) -
        Real.log K)) ∧
    (RWS.call M x y r none).res_neg_log_px =
      meanFin (fun n => (RWS.call M x y r none).nll n) := by
  exact ⟨fun n => rfl, rfl⟩

/-- C8: in every call of RWS.__call__ the normalized importance weights
w_tilde sum to 1 along the posterior-sample axis for each data point. -/
theorem rws_w_tilde_sums_one {N K dv dh dy : ℕ} (M : RWS.Model N dv dh dy)
    (x : Mat N dv) (y : Mat N dy) (r : Fin K → Mat N dh)
    (qk : Option (Mat N dh)) (hK : 0 < K) (n : Fin N) :
    ∑ k, (RWS.call M x y r qk).weights k n = 1 :=
  sum_exp_sub_lse hK (fun k => RWS.log_pq M x y r qk k n)

/-- Witness for C8 at a concrete one-sample instance. -/
theorem rws_w_tilde_sums_one_inst :
    ∑ k, (RWS.call Wit.trivModel Wit.m11 Wit.m11 Wit.r11 none).weights k 0 = 1 :=
  rws_w_tilde_sums_one Wit.trivModel Wit.m11 Wit.m11 Wit.r11 none (by decide) 0

/-- C9: f_update of adam ignores its learning-rate argument: any two
learning-rate values produce the same parameters, moment estimates and step
counter from the same state, the step size being the hard-coded constant. -/
theorem adam_update_ignores_lr {ι : Type} {rows cols : ι → ℕ}
    (name : ι → Op.Name) (exclude : List Op.Name) (lr1 lr2 : ℝ)
    (st : Op.AdamState rows cols) (g : ∀ i, Op.Tens rows cols i) :
    Op.adam_f_update name exclude lr1 st g =
      Op.adam_f_update name exclude lr2 st g := rfl

/-- C10: GradInferRBM.set_params is declared with no parameters, so invoking
it as a bound method (one positional argument, the instance) raises TypeError
and its body never runs: no outcome installs the extra parameters. -/
theorem grad_infer_rbm_set_params_type_error (body : Py.Params → Py.Params)
    (st : Py.Params) :
    Py.invoke_method Py.gradInferRBM_set_params_arity body 0 st =
        Py.Outcome.typeError ∧
      ∀ out, Py.invoke_method Py.gradInferRBM_set_params_arity body 0 st ≠
        Py.Outcome.ok out := by
  constructor
  · simp [Py.invoke_method, Py.gradInferRBM_set_params_arity]
  · intro out
    simp [Py.invoke_method, Py.gradInferRBM_set_params_arity]

/-- C2: each Gibbs transition of RBM.step_gibbs first samples the visibles v
with v_i = 1 iff r_v_i <= sigmoid((h.dot(W.T) + b)_i), then samples the new
hiddens with h_j = 1 iff r_h_j <= sigmoid((v.dot(W) + c)_j), and returns
(h, v, p(h|v), p(v|h)); RBM.sample iterates this step along the n_steps draws
starting from h0. -/
theorem rbm_step_gibbs_sample {N dv dh : ℕ} (W : Mat dv dh) (b : Fin dv → ℝ)
    (c : Fin dh → ℝ) (r_h : Mat N dh) (r_v : Mat N dv) (h : Mat N dh)
    (h0 : Mat N dh) (rs : List (Mat N dh × Mat N dv)) (k : ℕ)
    (rstep : Mat N dh × Mat N dv) (hk : rs[k]? = some rstep) :
    (∀ n i, (RBM.step_gibbs r_h r_v h W b c).2.1 n i = 1 ↔
        r_v n i ≤ sigmoid ((∑ j, h n j * W i j) + b i)) ∧
    (∀ n j, (RBM.step_gibbs r_h r_v h W b c).1 n j = 1 ↔
        r_h n j ≤ sigmoid
          ((∑ i, (RBM.step_gibbs r_h r_v h W b c).2.1 n i * W i j) + c j)) ∧
    (RBM.step_gibbs r_h r_v h W b c).2.2.1 =
      RBM.step_ph_v (RBM.step_gibbs r_h r_v h W b c).2.1 W c ∧
    (RBM.step_gibbs r_h r_v h W b c).2.2.2 = RBM.step_pv_h h W b ∧
    (RBM.sample W b c h0 rs).length = rs.length ∧
    (RBM.sample W b c h0 rs)[k]? =
      some (RBM.step_gibbs rstep.1 rstep.2
        (RBM.gibbs_iterate W b c h0 (rs.take k)) W b c) := by
  refine ⟨fun n i => ite_one_zero_eq_one, fun n j => ite_one_zero_eq_one,
    rfl, rfl, sample_length W b c h0 rs, sample_getElem W b c h0 rs k rstep hk⟩

/-- Witness for C2 at a concrete one-step instance. -/
theorem rbm_step_gibbs_sample_inst :
    (∀ n i, (RBM.step_gibbs Wit.m11 Wit.m11 Wit.m11 Wit.m11
        (fun _ => 0) (fun _ => 0)).2.1 n i = 1 ↔
        Wit.m11 n i ≤ sigmoid ((∑ j, Wit.m11 n j * Wit.m11 i j) + (0 : ℝ))) ∧
    (∀ n j, (RBM.step_gibbs Wit.m11 Wit.m11 Wit.m11 Wit.m11
        (fun _ => 0) (fun _ => 0)).1 n j = 1 ↔
        Wit.m11 n j ≤ sigmoid
          ((∑ i, (RBM.step_gibbs Wit.m11 Wit.m11 Wit.m11 Wit.m11
            (fun _ => 0) (fun _ => 0)).2.1 n i * Wit.m11 i j) + (0 : ℝ))) ∧
    (RBM.step_gibbs Wit.m11 Wit.m11 Wit.m11 Wit.m11
        (fun _ => 0) (fun _ => 0)).2.2.1 =
      RBM.step_ph_v (RBM.step_gibbs Wit.m11 Wit.m11 Wit.m11 Wit.m11
        (fun _ => 0) (fun _ => 0)).2.1 Wit.m11 (fun _ => 0) ∧
    (RBM.step_gibbs Wit.m11 Wit.m11 Wit.m11 Wit.m11
        (fun _ => 0) (fun _ => 0)).2.2.2 =
      RBM.step_pv_h Wit.m11 Wit.m11 (fun _ => 0) ∧
    (RBM.sample Wit.m11 (fun _ => 0) (fun _ => 0) Wit.m11 Wit.rsOne).length =
      Wit.rsOne.length ∧
    (RBM.sample Wit.m11 (fun _ => 0) (fun _ => 0) Wit.m11 Wit.rsOne)[0]? =
      some (RBM.step_gibbs Wit.rpair.1 Wit.rpair.2
        (RBM.gibbs_iterate Wit.m11 (fun _ => 0) (fun _ => 0) Wit.m11
          (Wit.rsOne.take 0)) Wit.m11 (fun _ => 0) (fun _ => 0)) :=
  rbm_step_gibbs_sample Wit.m11 (fun _ => 0) (fun _ => 0) Wit.m11 Wit.m11
    Wit.m11 Wit.m11 Wit.rsOne 0 Wit.rpair rfl

/-- C4: f_update of sgd sets every non-excluded parameter to p - lr * g with g
the gradient stored unchanged by f_grad_shared, and leaves excluded parameters
unchanged. -/
theorem sgd_optimizer_spec {ι : Type} {rows cols : ι → ℕ} (name : ι → Op.Name)
    (exclude : List Op.Name) (lr : ℝ) (p grads : ∀ i, Op.Tens rows cols i)
    (i j : ι) (hi : name i ∉ exclude) (hj : name j ∈ exclude) :
    (∀ r c, Op.sgd_f_update name exclude lr p (Op.sgd_f_grad_shared grads) i r c =
        p i r c - lr * Op.sgd_f_grad_shared grads i r c) ∧
    Op.sgd_f_update name exclude lr p (Op.sgd_f_grad_shared grads) j = p j := by
  constructor
  · intro r c
    simp [Op.sgd_f_update, hi]
  · simp [Op.sgd_f_update, hj]

/-- Witness for C4 with one excluded and one non-excluded parameter. -/
theorem sgd_optimizer_spec_inst :
    (∀ r c, Op.sgd_f_update Wit.names2 [Wit.nmB] 1 Wit.zeroTens
        (Op.sgd_f_grad_shared Wit.zeroTens) 1 r c =
        Wit.zeroTens 1 r c - 1 * Op.sgd_f_grad_shared Wit.zeroTens 1 r c) ∧
    Op.sgd_f_update Wit.names2 [Wit.nmB] 1 Wit.zeroTens
        (Op.sgd_f_grad_shared Wit.zeroTens) 0 = Wit.zeroTens 0 :=
  sgd_optimizer_spec Wit.names2 [Wit.nmB] 1 Wit.zeroTens Wit.zeroTens 1 0
    (by decide) (by decide)

/-- C5: adadelta keeps rg2 <- 0.95 rg2 + 0.05 g^2 in f_grad_shared (storing g)
and ru2 <- 0.95 ru2 + 0.05 ud^2 in f_update, and moves every non-excluded
parameter by ud = -(sqrt(ru2 + 1e-6)/sqrt(rg2 + 1e-6)) * g. -/
theorem adadelta_optimizer_spec {ι : Type} {rows cols : ι → ℕ}
    (name : ι → Op.Name) (exclude : List Op.Name) (lr : ℝ)
    (grads : ∀ i, Op.Tens rows cols i) (st : Op.AdadeltaState rows cols)
    (i : ι) (hi : name i ∉ exclude) :
    (∀ r c, (Op.adadelta_f_grad_shared grads st).zipped_grads i r c =
        grads i r c) ∧
    (∀ r c, (Op.adadelta_f_grad_shared grads st).running_grads2 i r c =
        0.95 * st.running_grads2 i r c + 0.05 * (grads i r c) ^ 2) ∧
    (∀ r c, (Op.adadelta_step name exclude lr grads st).running_up2 i r c =
        0.95 * st.running_up2 i r c +
          0.05 * (-(Real.sqrt (st.running_up2 i r c + 1e-6) /
            Real.sqrt ((Op.adadelta_f_grad_shared grads st).running_grads2 i r c
              + 1e-6)) * grads i r c) ^ 2) ∧
    (∀ r c, (Op.adadelta_step name exclude lr grads st).p i r c =
        st.p i r c +
          -(Real.sqrt (st.running_up2 i r c + 1e-6) /
            Real.sqrt ((Op.adadelta_f_grad_shared grads st).running_grads2 i r c
              + 1e-6)) * grads i r c) := by
  refine ⟨fun r c => rfl, fun r c => rfl, fun r c => ?_, fun r c => ?_⟩
  · simp only [Op.adadelta_step, Op.adadelta_f_update, Op.adadelta_updir,
      Op.adadelta_f_grad_shared]
    ring
  · simp only [Op.adadelta_step, Op.adadelta_f_update, Op.adadelta_updir,
      Op.adadelta_f_grad_shared, if_neg hi]
    ring

/-- Witness for C5 at a concrete non-excluded parameter. -/
theorem adadelta_optimizer_spec_inst :
    (∀ r c, (Op.adadelta_f_grad_shared Wit.zeroTens Wit.adadeltaSt0).zipped_grads
        0 r c = Wit.zeroTens 0 r c) ∧
    (∀ r c, (Op.adadelta_f_grad_shared Wit.zeroTens Wit.adadeltaSt0).running_grads2
        0 r c = 0.95 * Wit.adadeltaSt0.running_grads2 0 r c +
          0.05 * (Wit.zeroTens 0 r c) ^ 2) ∧
    (∀ r c, (Op.adadelta_step Wit.names2 [] 1 Wit.zeroTens
        Wit.adadeltaSt0).running_up2 0 r c =
        0.95 * Wit.adadeltaSt0.running_up2 0 r c +
          0.05 * (-(Real.sqrt (Wit.adadeltaSt0.running_up2 0 r c + 1e-6) /
            Real.sqrt ((Op.adadelta_f_grad_shared Wit.zeroTens
              Wit.adadeltaSt0).running_grads2 0 r c + 1e-6)) *
            Wit.zeroTens 0 r c) ^ 2) ∧
    (∀ r c, (Op.adadelta_step Wit.names2 [] 1 Wit.zeroTens Wit.adadeltaSt0).p
        0 r c =
        Wit.adadeltaSt0.p 0 r c +
          -(Real.sqrt (Wit.adadeltaSt0.running_up2 0 r c + 1e-6) /
            Real.sqrt ((Op.adadelta_f_grad_shared Wit.zeroTens
              Wit.adadeltaSt0).running_grads2 0 r c + 1e-6)) *
            Wit.zeroTens 0 r c) :=
  adadelta_optimizer_spec Wit.names2 [] 1 Wit.zeroTens Wit.adadeltaSt0 0
    (by decide)

/-- C6: rmsprop keeps rg <- 0.95 rg + 0.05 g and rg2 <- 0.95 rg2 + 0.05 g^2 in
f_grad_shared (storing g), and f_update sets the momentum to
ud_new = 0.9 ud - 1e-4 g / sqrt(rg2 - rg^2 + 1e-4) and every non-excluded
parameter to p + ud_new. -/
theorem rmsprop_optimizer_spec {ι : Type} {rows cols : ι → ℕ}
    (name : ι → Op.Name) (exclude : List Op.Name) (lr : ℝ)
    (grads : ∀ i, Op.Tens rows cols i) (st : Op.RmspropState rows cols)
    (i : ι) (hi : name i ∉ exclude) :
    (∀ r c, (Op.rmsprop_f_grad_shared grads st).zipped_grads i r c =
        grads i r c) ∧
    (∀ r c, (Op.rmsprop_f_grad_shared grads st).running_grads i r c =
        0.95 * st.running_grads i r c + 0.05 * grads i r c) ∧
    (∀ r c, (Op.rmsprop_f_grad_shared grads st).running_grads2 i r c =
        0.95 * st.running_grads2 i r c + 0.05 * (grads i r c) ^ 2) ∧
    (∀ r c, (Op.rmsprop_step name exclude lr grads st).updir i r c =
        0.9 * st.updir i r c -
          1e-4 * grads i r c /
            Real.sqrt ((Op.rmsprop_f_grad_shared grads st).running_grads2 i r c -
              ((Op.rmsprop_f_grad_shared grads st).running_grads i r c) ^ 2 +
                1e-4)) ∧
    (∀ r c, (Op.rmsprop_step name exclude lr grads st).p i r c =
        st.p i r c + (Op.rmsprop_step name exclude lr grads st).updir i r c) := by
  refine ⟨fun r c => rfl, fun r c => rfl, fun r c => rfl, fun r c => rfl,
    fun r c => ?_⟩
  simp only [Op.rmsprop_step, Op.rmsprop_f_update, Op.rmsprop_updir_new,
    Op.rmsprop_f_grad_shared, if_neg hi]

/-- Witness for C6 at a concrete non-excluded parameter. -/
theorem rmsprop_optimizer_spec_inst :
    (∀ r c, (Op.rmsprop_f_grad_shared Wit.zeroTens Wit.rmspropSt0).zipped_grads
        0 r c = Wit.zeroTens 0 r c) ∧
    (∀ r c, (Op.rmsprop_f_grad_shared Wit.zeroTens Wit.rmspropSt0).running_grads
        0 r c = 0.95 * Wit.rmspropSt0.running_grads 0 r c +
          0.05 * Wit.zeroTens 0 r c) ∧
    (∀ r c, (Op.rmsprop_f_grad_shared Wit.zeroTens Wit.rmspropSt0).running_grads2
        0 r c = 0.95 * Wit.rmspropSt0.running_grads2 0 r c +
          0.05 * (Wit.zeroTens 0 r c) ^ 2) ∧
    (∀ r c, (Op.rmsprop_step Wit.names2 [] 1 Wit.zeroTens Wit.rmspropSt0).updir
        0 r c =
        0.9 * Wit.rmspropSt0.updir 0 r c -
          1e-4 * Wit.zeroTens 0 r c /
            Real.sqrt ((Op.rmsprop_f_grad_shared Wit.zeroTens
              Wit.rmspropSt0).running_grads2 0 r c -
              ((Op.rmsprop_f_grad_shared Wit.zeroTens
                Wit.rmspropSt0).running_grads 0 r c) ^ 2 + 1e-4)) ∧
    (∀ r c, (Op.rmsprop_step Wit.names2 [] 1 Wit.zeroTens Wit.rmspropSt0).p
        0 r c =
        Wit.rmspropSt0.p 0 r c +
          (Op.rmsprop_step Wit.names2 [] 1 Wit.zeroTens Wit.rmspropSt0).updir
            0 r c) :=
  rmsprop_optimizer_spec Wit.names2 [] 1 Wit.zeroTens Wit.rmspropSt0 0
    (by decide)

/-- C3: adam stores gradients divided by 100 and rescaled so the global norm
is at most 5, then f_update applies m <- 0.1 g + 0.9 m,
v <- 0.001 g^2 + 0.999 v, p <- p - lr_t * m / (sqrt v + 1e-8) with
lr_t = 0.0002 sqrt(1 - 0.001^t)/(1 - 0.1^t) at step t, for every non-excluded
parameter; afterwards every updated parameter whose name holds the letter W
has its column norms clipped to at most 1.9365. -/
theorem adam_optimizer_spec {ι : Type} [Fintype ι] {rows cols : ι → ℕ}
    (name : ι → Op.Name) (exclude : List Op.Name) (lr : ℝ)
    (st : Op.AdamState rows cols) (grads : ∀ i2, Op.Tens rows cols i2)
    (i j : ι) (hi1 : name i ∉ exclude) (hi2 : Op.wChar ∉ name i)
    (hj1 : name j ∉ exclude) (hj2 : Op.wChar ∈ name j) :
    (∀ i2 r c, Op.adam_f_grad_shared grads i2 r c =
        grads i2 r c / 100 *
          (5 / max 5 (Op.gnorm_all (fun i3 r3 c3 => grads i3 r3 c3 / 100)))) ∧
    Op.gnorm_all (Op.adam_f_grad_shared grads) ≤ 5 ∧
    (Op.adam_step name exclude lr st grads).cnt = st.cnt + 1 ∧
    (∀ r c, (Op.adam_step name exclude lr st grads).m i r c =
        0.1 * Op.adam_f_grad_shared grads i r c + 0.9 * st.m i r c) ∧
    (∀ r c, (Op.adam_step name exclude lr st grads).v i r c =
        0.001 * (Op.adam_f_grad_shared grads i r c) ^ 2 + 0.999 * st.v i r c) ∧
    (∀ r c, (Op.adam_step name exclude lr st grads).p i r c =
        st.p i r c -
          0.0002 * (Real.sqrt (1 - (0.001 : ℝ) ^ (st.cnt + 1)) /
              (1 - (0.1 : ℝ) ^ (st.cnt + 1))) *
            ((Op.adam_step name exclude lr st grads).m i r c /
              (Real.sqrt ((Op.adam_step name exclude lr st grads).v i r c) +
                1e-8))) ∧
    (∀ c, Real.sqrt (∑ r, ((Op.adam_step name exclude lr st grads).p j r c) ^ 2)
        ≤ 1.9365) := by
  refine ⟨fun i2 r c => rfl, adam_f_grad_shared_norm_le grads, rfl,
    fun r c => ?_, fun r c => ?_, fun r c => ?_, fun c => ?_⟩
  · simp only [Op.adam_step, Op.adam_f_update, Op.b1]
    norm_num
  · simp only [Op.adam_step, Op.adam_f_update, Op.b2]
    norm_num
  · simp only [Op.adam_step, Op.adam_f_update, if_neg hi1, if_neg hi2,
      Op.lr0, Op.b1, Op.b2, Op.eConst]
  · simp only [Op.adam_step, Op.adam_f_update, if_neg hj1, if_pos hj2]
    exact clip_cols_col_norm_le _ c

/-- Witness for C3 with a non-excluded parameter named b and one named W. -/
theorem adam_optimizer_spec_inst :
    (∀ i2 r c, Op.adam_f_grad_shared Wit.zeroTens i2 r c =
        Wit.zeroTens i2 r c / 100 *
          (5 / max 5 (Op.gnorm_all (fun i3 r3 c3 => Wit.zeroTens i3 r3 c3 / 100)))) ∧
    Op.gnorm_all (Op.adam_f_grad_shared Wit.zeroTens) ≤ 5 ∧
    (Op.adam_step Wit.names2 [] 1 Wit.adamSt0 Wit.zeroTens).cnt =
      Wit.adamSt0.cnt + 1 ∧
    (∀ r c, (Op.adam_step Wit.names2 [] 1 Wit.adamSt0 Wit.zeroTens).m 0 r c =
        0.1 * Op.adam_f_grad_shared Wit.zeroTens 0 r c +
          0.9 * Wit.adamSt0.m 0 r c) ∧
    (∀ r c, (Op.adam_step Wit.names2 [] 1 Wit.adamSt0 Wit.zeroTens).v 0 r c =
        0.001 * (Op.adam_f_grad_shared Wit.zeroTens 0 r c) ^ 2 +
          0.999 * Wit.adamSt0.v 0 r c) ∧
    (∀ r c, (Op.adam_step Wit.names2 [] 1 Wit.adamSt0 Wit.zeroTens).p 0 r c =
        Wit.adamSt0.p 0 r c -
          0.0002 * (Real.sqrt (1 - (0.001 : ℝ) ^ (Wit.adamSt0.cnt + 1)) /
              (1 - (0.1 : ℝ) ^ (Wit.adamSt0.cnt + 1))) *
            ((Op.adam_step Wit.names2 [] 1 Wit.adamSt0 Wit.zeroTens).m 0 r c /
              (Real.sqrt ((Op.adam_step Wit.names2 [] 1 Wit.adamSt0
                Wit.zeroTens).v 0 r c) + 1e-8))) ∧
    (∀ c, Real.sqrt (∑ r,
        ((Op.adam_step Wit.names2 [] 1 Wit.adamSt0 Wit.zeroTens).p 1 r c) ^ 2)
        ≤ 1.9365) :=
  adam_optimizer_spec Wit.names2 [] 1 Wit.adamSt0 Wit.zeroTens 0 1
    (by decide) (by decide) (by decide) (by decide)

/-- C7: RBM.__call__ returns cost equal to mean F(v0) minus mean F(vk), where
v0 = x, vk is the visible sample after the last of the n_steps Gibbs steps,
and F(x) = -sum_i x_i b_i - sum_j log(1 + exp(c_j + (x.dot(W))_j)). -/
theorem rbm_call_cost_spec {N dv dh : ℕ} (W : Mat dv dh) (b : Fin dv → ℝ)
    (c : Fin dh → ℝ) (x : Mat N dv) (hp : Mat N dh) (r0 : Mat N dh)
    (rs : List (Mat N dh × Mat N dv))
    (o : Mat N dh × Mat N dv × Mat N dh × Mat N dv)
    (ho : (RBM.sample W b c hp rs).getLast? = some o) :
    (RBM.rbm_call W b c x (some hp) r0 rs).cost =
      (∑ n, (-(∑ i, x n i * b i) -
        ∑ j, Real.log (1 + Real.exp (c j + ∑ i, x n i * W i j)))) / N -
      (∑ n, (-(∑ i, o.2.1 n i * b i) -
        ∑ j, Real.log (1 + Real.exp (c j + ∑ i, o.2.1 n i * W i j)))) / N := by
  have h1 : ∀ y : Mat N dv, meanFin (RBM.free_energy W b c y) =
      (∑ n, (-(∑ i, y n i * b i) -
        ∑ j, Real.log (1 + Real.exp (c j + ∑ i, y n i * W i j)))) / N := by
    intro y
    unfold meanFin
    congr 1
    exact Finset.sum_congr rfl fun n _ => free_energy_eq W b c y n
  have hcost : (RBM.rbm_call W b c x (some hp) r0 rs).cost =
      meanFin (RBM.free_energy W b c x) -
        meanFin (RBM.free_energy W b c o.2.1) := by
    simp [RBM.rbm_call, ho]
  rw [hcost, h1 x, h1 o.2.1]

/-- Witness for C7 at a concrete one-step chain. -/
theorem rbm_call_cost_spec_inst :
    (RBM.rbm_call Wit.m11 (fun _ => 0) (fun _ => 0) Wit.m11 (some Wit.m11)
        Wit.m11 Wit.rsOne).cost =
      (∑ n, (-(∑ i, Wit.m11 n i * (fun _ : Fin 1 => (0 : ℝ)) i) -
        ∑ j, Real.log (1 + Real.exp ((fun _ : Fin 1 => (0 : ℝ)) j +
          ∑ i, Wit.m11 n i * Wit.m11 i j)))) / (1 : ℕ) -
      (∑ n, (-(∑ i, (RBM.step_gibbs Wit.rpair.1 Wit.rpair.2 Wit.m11 Wit.m11
          (fun _ => 0) (fun _ => 0)).2.1 n i * (fun _ : Fin 1 => (0 : ℝ)) i) -
        ∑ j, Real.log (1 + Real.exp ((fun _ : Fin 1 => (0 : ℝ)) j +
          ∑ i, (RBM.step_gibbs Wit.rpair.1 Wit.rpair.2 Wit.m11 Wit.m11
            (fun _ => 0) (fun _ => 0)).2.1 n i * Wit.m11 i j)))) / (1 : ℕ) :=
  rbm_call_cost_spec Wit.m11 (fun _ => 0) (fun _ => 0) Wit.m11 Wit.m11 Wit.m11
    Wit.rsOne
    (RBM.step_gibbs Wit.rpair.1 Wit.rpair.2 Wit.m11 Wit.m11
      (fun _ => 0) (fun _ => 0))
    rfl

end

end Cortex
